import Mathlib

/-!
Verification development for the bulk mail application (`src/app.py`).

The Python source is shallowly embedded: pure helpers become Lean
functions, the bulk dispatch loop becomes explicit state passing over a
`RunState`, fallible steps return `Except`, and external collaborators
(the SES transport, the filesystem, the cancellation flag read at each
loop iteration) are oracle parameters of the run.  All scanners are
written with an explicit fuel argument (fuel = input length) so that
every definition evaluates by `decide` / `rfl`.

Braces inside string literals are written with the escapes `\x7b` (open
brace) and `\x7d` (close brace).
-/

/-! ### Character classes

ASCII classes of the regular expression
`r'\x7b\x7b\s*([a-zA-Z_][a-zA-Z0-9_]*)\s*\x7d\x7d'` used by
`extract_template_variables` (src/app.py line 22), expressed over the
character codes so proofs can reason with `omega`. -/

def isPySpace (c : Char) : Bool :=
  c.toNat = 32 || c.toNat = 9 || c.toNat = 10 || c.toNat = 13 || c.toNat = 11 || c.toNat = 12

def isIdentStart (c : Char) : Bool :=
  (97 ≤ c.toNat && c.toNat ≤ 122) || (65 ≤ c.toNat && c.toNat ≤ 90) || c.toNat = 95

def isIdentChar (c : Char) : Bool :=
  isIdentStart c || (48 ≤ c.toNat && c.toNat ≤ 57)

def lbrace : Char := '\x7b'

def rbrace : Char := '\x7d'

/-- A valid identifier in the sense of the pattern `[a-zA-Z_][a-zA-Z0-9_]*`:
nonempty, the head an identifier-start character, the tail identifier
characters. -/
def validIdent (v : String) : Bool :=
  match v.data with
  | [] => false
  | c :: cs => isIdentStart c && cs.all isIdentChar

/-! ### The regex matcher

`tryMatchAt cs` attempts to match the pattern
`\x7b\x7b\s*([a-zA-Z_][a-zA-Z0-9_]*)\s*\x7d\x7d` at the very start of
`cs`, returning the captured identifier and the characters following the
match.  Because `\s*` and the identifier class are disjoint from each
other and from the closing braces, the greedy/backtracking regex engine
behaves exactly like this deterministic scanner. -/

def tryMatchAt (cs : List Char) : Option (String × List Char) :=
  match cs with
  | c1 :: c2 :: rest =>
    if c1 = lbrace && c2 = lbrace then
      match rest.dropWhile isPySpace with
      | c :: cs1 =>
        if isIdentStart c then
          match (cs1.dropWhile isIdentChar).dropWhile isPySpace with
          | d1 :: d2 :: rest4 =>
            if d1 = rbrace && d2 = rbrace then
              some (String.mk (c :: cs1.takeWhile isIdentChar), rest4)
            else none
          | _ => none
        else none
      | [] => none
    else none
  | _ => none

/-- `re.findall` semantics: scan left to right, taking non-overlapping
matches, advancing one character past positions where no match starts.
Fuel-structural; `findVars` supplies fuel = length. -/
def findVarsFuel : Nat → List Char → List String
  | 0, _ => []
  | _ + 1, [] => []
  | fuel + 1, c :: rest =>
    match tryMatchAt (c :: rest) with
    | some (v, rest') => v :: findVarsFuel fuel rest'
    | none => findVarsFuel fuel rest

def findVars (cs : List Char) : List String :=
  findVarsFuel cs.length cs

/-- First-occurrence de-duplication, modelling the `list(set(...))` in
`extract_template_variables` (the Python result order is arbitrary; the
claims about it are order-independent). -/
def dedupFirst : List String → List String
  | [] => []
  | x :: xs => x :: (dedupFirst xs).filter (fun y => y ≠ x)

/-- src/app.py lines 20-24: scan a template for `\x7b\x7b name \x7d\x7d`
placeholders and return the distinct variable names. -/
def extract_template_variables (template_text : String) : List String :=
  dedupFirst (findVars template_text.data)

/-! ### Template rendering

The bulk path (src/app.py lines 266-268 and 195-196) builds
`template_values[var] = row.get(var, "[var]")` for every extracted
variable and then renders with Jinja2.  On templates whose only Jinja
constructs are bare `\x7b\x7b identifier \x7d\x7d` placeholders (the only
form the application recognises, per `extract_template_variables`) this
composite is exactly: substitute each placeholder by the mapped value,
falling back to the bracketed variable name when the mapping has no
entry. -/

def renderFuel (m : List (String × String)) : Nat → List Char → List Char
  | 0, cs => cs
  | _ + 1, [] => []
  | fuel + 1, c :: rest =>
    match tryMatchAt (c :: rest) with
    | some (v, rest') => ((List.lookup v m).getD ("[" ++ v ++ "]")).data ++ renderFuel m fuel rest'
    | none => c :: renderFuel m fuel rest

def renderTemplate (template_text : String) (m : List (String × String)) : String :=
  String.mk (renderFuel m template_text.data.length template_text.data)

/-! ### Plain-text derivation

src/app.py line 197: `re.sub('<[^<]+?>', '', rendered_html)`.  The lazy
match at a `<` removes it together with the shortest following run of
non-`<` characters terminated by `>`. -/

def scanGt : List Char → Option (List Char)
  | [] => none
  | c :: r => if c = '>' then some r else if c = '<' then none else scanGt r

def tagEnd : List Char → Option (List Char)
  | [] => none
  | c :: r => if c = '<' then none else scanGt r

def stripFuel : Nat → List Char → List Char
  | 0, cs => cs
  | _ + 1, [] => []
  | fuel + 1, c :: rest =>
    if c = '<' then
      match tagEnd rest with
      | some rest' => stripFuel fuel rest'
      | none => c :: stripFuel fuel rest
    else c :: stripFuel fuel rest

def stripTags (html : String) : String :=
  String.mk (stripFuel html.data.length html.data)

/-! ### Data model

A recipient row of the (de-duplicated) table.  `label` is the pandas
index label the row carries through `df.iterrows()`: `pd.read_csv`
assigns labels `0, 1, 2, ...` in input order and
`df.drop_duplicates(subset=['email'])` keeps the surviving rows' original
labels.  The template-variable columns are modelled as string-valued
fields; the optional `pdf` column is modelled separately because pandas
represents a missing value in a present column as the float NaN, whose
Python truthiness and type matter to the dispatch loop. -/

inductive CellValue
  | strVal (s : String)
  | nanVal
deriving DecidableEq

structure Row where
  email : String
  fields : List (String × String)
  pdf : Option CellValue
  label : Nat
deriving DecidableEq

/-- `row.get(var, default)` for a template-variable column. -/
def rowGet (r : Row) (k : String) : Option String :=
  List.lookup k r.fields

/-- Python truthiness of the value `row.get("pdf", None)`: `None` and the
empty string are falsy, any other string is truthy, and the float NaN is
truthy. -/
def cellTruthy : Option CellValue → Bool
  | none => false
  | some (CellValue.strVal s) => !(s == "")
  | some CellValue.nanVal => true

/-- Python truthiness of the `pdf_folder` argument (a string or `None`). -/
def strTruthy : Option String → Bool
  | none => false
  | some s => !(s == "")

/-- `os.path.join(folder, filename)` for a plain relative filename. -/
def pathJoin (folder fname : String) : String :=
  folder ++ "/" ++ fname

/-- src/app.py lines 255-263: resolve the row's declared attachment.
`fileExists` is the `os.path.exists` oracle.  When the cell is truthy and
the folder is truthy, the code calls `os.path.join(pdf_folder,
pdf_filename)`; if the cell holds the float NaN that call raises
`TypeError`, which the surrounding loop does not catch. -/
def resolvePdfPath (pdfFolder : Option String) (cell : Option CellValue)
    (fileExists : String → Bool) : Except String (Option String) :=
  if cellTruthy cell && strTruthy pdfFolder then
    match cell, pdfFolder with
    | some (CellValue.strVal fname), some folder =>
      let path := pathJoin folder fname
      if fileExists path then Except.ok (some path) else Except.ok none
    | some CellValue.nanVal, _ =>
      Except.error "TypeError: join() argument must be str, bytes, or os.PathLike object, not float"
    | _, _ => Except.ok none
  else Except.ok none

/-- External collaborators and configuration of one bulk run: the
composer inputs (sidebar + form), the transport outcome per recipient
(a delivery id or a classified error description), the filesystem, and
the cancellation flag as read at the check preceding each loop
iteration (`st.session_state.cancel_bulk`, sampled at check number `k`). -/
structure Ctx where
  senderName : String
  senderEmail : String
  subject : String
  htmlBody : String
  pdfFolder : Option String
  transport : String → Except String String
  fileExists : String → Bool
  cancel : Nat → Bool

/-- The MIME message assembled in `send_single_email`
(src/app.py lines 199-218). -/
structure MimeMessage where
  subject : String
  fromHeader : String
  toHeader : String
  textPart : String
  htmlPart : String
  attachment : Option String
deriving DecidableEq

/-- src/app.py lines 199-218: the subject header is set verbatim (line
201); only the HTML body is rendered (lines 195-196); the text part is
the tag-stripped rendering; the attachment part is added only when a
path was resolved and the file exists. -/
def buildMessage (ctx : Ctx) (recipient : String)
    (templateValues : List (String × String)) (pdfPath : Option String) : MimeMessage :=
  let rendered := renderTemplate ctx.htmlBody templateValues
  { subject := ctx.subject
    fromHeader := ctx.senderName ++ " <" ++ ctx.senderEmail ++ ">"
    toHeader := recipient
    textPart := stripTags rendered
    htmlPart := rendered
    attachment :=
      match pdfPath with
      | some p => if ctx.fileExists p then some p else none
      | none => none }

/-- src/app.py lines 192-234: render, build, and issue the transport
call for one recipient; errors propagate to the caller (the loop's
try/except). -/
def send_single_email (ctx : Ctx) (recipient : String)
    (templateValues : List (String × String)) (pdfPath : Option String) :
    Except String (String × MimeMessage) :=
  let msg := buildMessage ctx recipient templateValues pdfPath
  match ctx.transport recipient with
  | Except.ok messageId => Except.ok (messageId, msg)
  | Except.error e => Except.error e

/-! ### The dispatch loop -/

/-- One progress update, as pushed to the Streamlit containers after a
row is processed (src/app.py lines 270 and 281-288).  `reportedProcessed`
is the value the code reports: `idx + 1` where `idx` is the row's pandas
label. -/
structure ProgressEvent where
  reportedProcessed : Nat
  total : Nat
  currentRecipient : String
  recentSent : List String
  recentFailed : List String
deriving DecidableEq

/-- Python `xs[-n:]`. -/
def lastN (n : Nat) (xs : List String) : List String :=
  xs.drop (xs.length - n)

/-- The run-scoped accumulators: `st.session_state.sent_emails`,
`st.session_state.failed_emails` (both reset to `[]` when the run is
confirmed, src/app.py lines 523-524), the local `sent_count`, the
recipients for which `send_single_email` was invoked, and the emitted
progress events. -/
structure RunState where
  sentEmails : List String
  failedEmails : List String
  sentCount : Nat
  attemptedRecipients : List String
  events : List ProgressEvent
deriving DecidableEq

def initState : RunState :=
  { sentEmails := [], failedEmails := [], sentCount := 0
    attemptedRecipients := [], events := [] }

/-- One iteration of the loop body (src/app.py lines 254-288), after the
cancellation check: resolve the attachment (an uncaught `TypeError`
aborts the run), build the per-row template values with the `[var]`
fallback, attempt the send recording `Sent`/`Failed`, and emit the
progress update. -/
def processRow (ctx : Ctx) (tvars : List String) (total : Nat) (row : Row)
    (st : RunState) : Except (RunState × String) RunState :=
  match resolvePdfPath ctx.pdfFolder row.pdf ctx.fileExists with
  | Except.error e => Except.error (st, e)
  | Except.ok pdfPath =>
    let recipient := row.email
    let templateValues := tvars.map (fun v => (v, (rowGet row v).getD ("[" ++ v ++ "]")))
    let st1 := { st with attemptedRecipients := st.attemptedRecipients ++ [recipient] }
    let st2 :=
      match send_single_email ctx recipient templateValues pdfPath with
      | Except.ok _ =>
        { st1 with sentEmails := st1.sentEmails ++ [recipient], sentCount := st1.sentCount + 1 }
      | Except.error e =>
        { st1 with failedEmails := st1.failedEmails ++ [recipient ++ ": " ++ e] }
    let ev : ProgressEvent :=
      { reportedProcessed := row.label + 1
        total := total
        currentRecipient := recipient
        recentSent := lastN 10 st2.sentEmails
        recentFailed := lastN 10 st2.failedEmails }
    Except.ok { st2 with events := st2.events ++ [ev] }

/-- Terminal shape of a run: the loop ran all rows and the final flag
read was clear (`Completed`), the flag was observed set (`Cancelled`),
or an uncaught exception escaped the loop (`Crashed`). -/
inductive RunResult
  | completed (st : RunState)
  | cancelled (st : RunState)
  | crashed (st : RunState) (msg : String)
deriving DecidableEq

/-- src/app.py lines 249-295: the loop checks the cancellation flag
before each row and breaks when set; after the loop the flag is read
once more for the final status. `k` counts the checks performed so far. -/
def runBulkAux (ctx : Ctx) (tvars : List String) (total : Nat) :
    List Row → Nat → RunState → RunResult
  | [], k, st => if ctx.cancel k then RunResult.cancelled st else RunResult.completed st
  | row :: rest, k, st =>
    if ctx.cancel k then RunResult.cancelled st
    else
      match processRow ctx tvars total row st with
      | Except.error (st', e) => RunResult.crashed st' e
      | Except.ok st' => runBulkAux ctx tvars total rest (k + 1) st'

/-- src/app.py lines 236-297: the bulk campaign over the (already
de-duplicated) table. -/
def run_bulk_with_progress (ctx : Ctx) (df : List Row) : RunResult :=
  runBulkAux ctx (extract_template_variables ctx.htmlBody) df.length df 0 initState

def resultState : RunResult → RunState
  | RunResult.completed st => st
  | RunResult.cancelled st => st
  | RunResult.crashed st _ => st

def isCompletedRun : RunResult → Bool
  | RunResult.completed _ => true
  | _ => false

def isCancelledRun : RunResult → Bool
  | RunResult.cancelled _ => true
  | _ => false

def isCrashedRun : RunResult → Bool
  | RunResult.crashed _ _ => true
  | _ => false

/-! ### De-duplication

src/app.py line 398: `df.drop_duplicates(subset=['email'])` — keep, in
order, each row whose email has not occurred before. -/

def dropDupAux : List Row → List String → List Row
  | [], _ => []
  | r :: rest, seen =>
    if r.email ∈ seen then dropDupAux rest seen
    else r :: dropDupAux rest (r.email :: seen)

def unique_df (df : List Row) : List Row :=
  dropDupAux df []

/-! ### Outcome description of a completed run -/

/-- The `sent_emails` contribution of one row, determined by the
transport outcome for its address. -/
def sentOne (ctx : Ctx) (r : Row) : List String :=
  match ctx.transport r.email with
  | Except.ok _ => [r.email]
  | Except.error _ => []

/-- The `failed_emails` contribution of one row: the loop records
`f"{recipient}: {e}"` (src/app.py line 277). -/
def failedOne (ctx : Ctx) (r : Row) : List String :=
  match ctx.transport r.email with
  | Except.ok _ => []
  | Except.error e => [r.email ++ ": " ++ e]

def sentOf (ctx : Ctx) : List Row → List String
  | [] => []
  | r :: rest => sentOne ctx r ++ sentOf ctx rest

def failedOf (ctx : Ctx) : List Row → List String
  | [] => []
  | r :: rest => failedOne ctx r ++ failedOf ctx rest

/-! ### Rate-limiter event order inside one send attempt

src/app.py lines 192-224: the whole body of `send_single_email` runs
inside `async with limiter:`, so the permit is acquired first, then the
message is rendered (195-196) and built (199-218), then the network call
is issued (220).  `aiolimiter.AsyncLimiter` releases nothing on exit:
a consumed permit only expires with time, so a failing send (an
exception raised at or after the network call) never refunds it. -/

inductive SendEvent
  | acquire
  | render
  | build
  | netcall
  | refund
deriving DecidableEq

/-- The event trace of one send attempt; the trace is the same whether
the transport call succeeds or raises, and contains no refund either
way. -/
def send_single_email_trace (_success : Bool) : List SendEvent :=
  [SendEvent.acquire, SendEvent.render, SendEvent.build, SendEvent.netcall]

/-- Position of the first occurrence of an event in a successful
attempt's trace. -/
def eventPos (e : SendEvent) : Nat :=
  (send_single_email_trace true).findIdx (fun x => x == e)

/-! ### Character-class facts -/

theorem identStart_not_space {c : Char} (h : isIdentStart c = true) : isPySpace c = false := by
  simp only [isIdentStart, Bool.or_eq_true, Bool.and_eq_true, decide_eq_true_eq] at h
  simp only [isPySpace, Bool.or_eq_false_iff, decide_eq_false_iff_not]
  omega

theorem identChar_not_space {c : Char} (h : isIdentChar c = true) : isPySpace c = false := by
  simp only [isIdentChar, isIdentStart, Bool.or_eq_true, Bool.and_eq_true,
    decide_eq_true_eq] at h
  simp only [isPySpace, Bool.or_eq_false_iff, decide_eq_false_iff_not]
  omega

theorem identChar_of_identStart {c : Char} (h : isIdentStart c = true) : isIdentChar c = true := by
  simp [isIdentChar, h]

theorem identChar_ne_lbrace {c : Char} (h : isIdentChar c = true) : c ≠ lbrace := by
  intro e; subst e; revert h; decide

theorem identChar_ne_rbrace {c : Char} (h : isIdentChar c = true) : c ≠ rbrace := by
  intro e; subst e; revert h; decide

theorem space_ne_lbrace {c : Char} (h : isPySpace c = true) : c ≠ lbrace := by
  intro e; subst e; revert h; decide

theorem space_ne_rbrace {c : Char} (h : isPySpace c = true) : c ≠ rbrace := by
  intro e; subst e; revert h; decide

theorem space_not_identChar {c : Char} (h : isPySpace c = true) : isIdentChar c = false := by
  simp only [isPySpace, Bool.or_eq_true, decide_eq_true_eq] at h
  simp only [isIdentChar, isIdentStart, Bool.or_eq_false_iff, Bool.and_eq_false_iff,
    decide_eq_false_iff_not]
  omega

/-! ### takeWhile / dropWhile helpers -/

theorem mem_takeWhile_sat {p : α → Bool} : ∀ {l : List α} {a : α}, a ∈ l.takeWhile p → p a = true := by
  intro l
  induction l with
  | nil => intro a h; simp [List.takeWhile] at h
  | cons c cs ih =>
    intro a h
    by_cases hc : p c = true
    · rw [List.takeWhile_cons_of_pos hc] at h
      rcases List.mem_cons.mp h with rfl | h2
      · exact hc
      · exact ih h2
    · rw [List.takeWhile_cons_of_neg (by simpa using hc)] at h
      simp at h

theorem takeWhile_cons_false {p : α → Bool} {c : α} {l : List α} (h : p c = false) :
    (c :: l).takeWhile p = [] := by
  simp [List.takeWhile_cons, h]

theorem dropWhile_cons_false {p : α → Bool} {c : α} {l : List α} (h : p c = false) :
    (c :: l).dropWhile p = c :: l := by
  simp [List.dropWhile_cons, h]

theorem takeWhile_all_append {p : α → Bool} :
    ∀ {l1 l2 : List α}, (∀ a ∈ l1, p a = true) → (l1 ++ l2).takeWhile p = l1 ++ l2.takeWhile p := by
  intro l1
  induction l1 with
  | nil => intro l2 _; simp
  | cons c cs ih =>
    intro l2 h
    have hc : p c = true := h c (by simp)
    simp only [List.cons_append, List.takeWhile_cons, hc, if_true]
    rw [ih (fun a ha => h a (by simp [ha]))]

theorem dropWhile_all_append {p : α → Bool} :
    ∀ {l1 l2 : List α}, (∀ a ∈ l1, p a = true) → (l1 ++ l2).dropWhile p = l2.dropWhile p := by
  intro l1
  induction l1 with
  | nil => intro l2 _; simp
  | cons c cs ih =>
    intro l2 h
    have hc : p c = true := h c (by simp)
    simp only [List.cons_append, List.dropWhile_cons, hc, if_true]
    exact ih (fun a ha => h a (by simp [ha]))


/-! ### Matcher characterisation -/

/-- Soundness of the matcher: a successful match decomposes the input as
two opening braces, whitespace, a valid identifier, whitespace, two
closing braces and the remainder. -/
theorem tryMatchAt_some_decomp {cs : List Char} {v : String} {rest' : List Char}
    (h : tryMatchAt cs = some (v, rest')) :
    ∃ ws1 ws2, cs = lbrace :: lbrace :: (ws1 ++ v.data ++ ws2 ++ rbrace :: rbrace :: rest') ∧
      (∀ a ∈ ws1, isPySpace a = true) ∧ (∀ a ∈ ws2, isPySpace a = true) ∧
      validIdent v = true := by
  unfold tryMatchAt at h
  split at h
  case h_2 => exact Option.noConfusion h
  case h_1 c1 c2 rest =>
    split at h
    case isFalse => exact Option.noConfusion h
    case isTrue hb =>
      rcases Bool.and_eq_true .. |>.mp hb with ⟨hb1, hb2⟩
      have hc1 : c1 = lbrace := by simpa using hb1
      have hc2 : c2 = lbrace := by simpa using hb2
      subst hc1; subst hc2
      split at h
      case h_2 => exact Option.noConfusion h
      case h_1 c cs1 hdw =>
        split at h
        case isFalse => exact Option.noConfusion h
        case isTrue hs =>
          split at h
          case h_2 => exact Option.noConfusion h
          case h_1 d1 d2 rest4 hdw2 =>
            split at h
            case isFalse => exact Option.noConfusion h
            case isTrue hd =>
              rcases Bool.and_eq_true .. |>.mp hd with ⟨hd1, hd2⟩
              have hd1' : d1 = rbrace := by simpa using hd1
              have hd2' : d2 = rbrace := by simpa using hd2
              subst hd1'; subst hd2'
              simp only [Option.some.injEq, Prod.mk.injEq] at h
              rcases h with ⟨hv, hr⟩
              refine ⟨rest.takeWhile isPySpace, (cs1.dropWhile isIdentChar).takeWhile isPySpace,
                ?_, ?_, ?_, ?_⟩
              · have e1 : rest = rest.takeWhile isPySpace ++ (c :: cs1) := by
                  conv_lhs => rw [← List.takeWhile_append_dropWhile (p := isPySpace) (l := rest)]
                  rw [hdw]
                have e2 : cs1 = cs1.takeWhile isIdentChar ++ cs1.dropWhile isIdentChar := by
                  rw [List.takeWhile_append_dropWhile]
                have e3 : cs1.dropWhile isIdentChar =
                    (cs1.dropWhile isIdentChar).takeWhile isPySpace ++
                      (rbrace :: rbrace :: rest4) := by
                  conv_lhs =>
                    rw [← List.takeWhile_append_dropWhile (p := isPySpace)
                      (l := cs1.dropWhile isIdentChar)]
                  rw [hdw2]
                rw [← hv, ← hr]
                conv_lhs => rw [e1]
                conv_lhs => rw [e2]
                conv_lhs => rw [e3]
                simp [List.append_assoc, List.cons_append]
              · intro a ha; exact mem_takeWhile_sat ha
              · intro a ha; exact mem_takeWhile_sat ha
              · rw [← hv]
                simp only [validIdent]
                rw [hs, Bool.true_and, List.all_eq_true]
                intro a ha
                exact mem_takeWhile_sat (by simpa using ha)

/-- Adequacy of the matcher: at a position that carries a wrapped
identifier, the matcher succeeds and captures exactly that identifier. -/
theorem tryMatchAt_adequate (ws1 ws2 : List Char) (v : String) (post : List Char)
    (h1 : ∀ a ∈ ws1, isPySpace a = true) (h2 : ∀ a ∈ ws2, isPySpace a = true)
    (hv : validIdent v = true) :
    tryMatchAt (lbrace :: lbrace :: (ws1 ++ v.data ++ ws2 ++ rbrace :: rbrace :: post)) =
      some (v, post) := by
  rcases hvd : v.data with _ | ⟨c, ctail⟩
  · rw [validIdent, hvd] at hv; simp at hv
  · rw [validIdent, hvd, Bool.and_eq_true, List.all_eq_true] at hv
    rcases hv with ⟨hstart, htail⟩
    have hdw1 : List.dropWhile isPySpace (ws1 ++ c :: ctail ++ ws2 ++ rbrace :: rbrace :: post) =
        c :: (ctail ++ ws2 ++ rbrace :: rbrace :: post) := by
      have e : ws1 ++ c :: ctail ++ ws2 ++ rbrace :: rbrace :: post =
          ws1 ++ (c :: (ctail ++ ws2 ++ rbrace :: rbrace :: post)) := by
        simp [List.append_assoc]
      rw [e, dropWhile_all_append h1, dropWhile_cons_false (identStart_not_space hstart)]
    have htake : (ctail ++ ws2 ++ rbrace :: rbrace :: post).takeWhile isIdentChar = ctail := by
      rw [List.append_assoc, takeWhile_all_append (fun a ha => htail a ha)]
      rcases ws2 with _ | ⟨w, ws2'⟩
      · simp [takeWhile_cons_false (p := isIdentChar) (by decide : isIdentChar rbrace = false)]
      · simp [takeWhile_cons_false (space_not_identChar (h2 w (by simp)))]
    have hdrop : (ctail ++ ws2 ++ rbrace :: rbrace :: post).dropWhile isIdentChar =
        ws2 ++ rbrace :: rbrace :: post := by
      rw [List.append_assoc, dropWhile_all_append (fun a ha => htail a ha)]
      rcases ws2 with _ | ⟨w, ws2'⟩
      · simp [dropWhile_cons_false (p := isIdentChar) (by decide : isIdentChar rbrace = false)]
      · simp [dropWhile_cons_false (space_not_identChar (h2 w (by simp)))]
    simp only [tryMatchAt]
    rw [if_pos (show (decide True && decide True) = true by decide)]
    split
    case h_2 himp => rw [hdw1] at himp; exact List.noConfusion himp
    case h_1 c' cs1' heq =>
      rw [hdw1] at heq
      injection heq with heqc heqcs
      subst heqc
      subst heqcs
      rw [if_pos hstart]
      have hdw2 : ((ctail ++ ws2 ++ rbrace :: rbrace :: post).dropWhile
          isIdentChar).dropWhile isPySpace = rbrace :: rbrace :: post := by
        rw [hdrop, dropWhile_all_append h2,
          dropWhile_cons_false (p := isPySpace) (by decide)]
      split
      case h_2 himp => exact absurd hdw2 (himp rbrace rbrace post)
      case h_1 d1 d2 rest4 heq2 =>
        rw [hdw2] at heq2
        injection heq2 with e1 e2
        injection e2 with e2 e3
        subst e1; subst e2; subst e3
        rw [if_pos (by decide : (decide (rbrace = rbrace) && decide (rbrace = rbrace)) = true)]
        rw [htake]
        have hmk : String.mk (c :: ctail) = v := by
          cases v with
          | mk data =>
            simp only [String.mk] at hvd ⊢
            rw [hvd]
        rw [hmk]

/-- A successful match consumes at least the two opening braces. -/
theorem tryMatchAt_length {cs : List Char} {v : String} {rest' : List Char}
    (h : tryMatchAt cs = some (v, rest')) : rest'.length < cs.length := by
  rcases tryMatchAt_some_decomp h with ⟨ws1, ws2, hcs, -, -, -⟩
  rw [hcs]
  simp [List.length_append]
  omega

/-! ### Fuel elimination for the scanners -/

theorem findVarsFuel_nil : ∀ fuel, findVarsFuel fuel [] = [] := by
  intro fuel; cases fuel <;> rfl

theorem findVarsFuel_congr : ∀ (fuel fuel' : Nat) (cs : List Char),
    cs.length ≤ fuel → cs.length ≤ fuel' → findVarsFuel fuel cs = findVarsFuel fuel' cs := by
  intro fuel
  induction fuel with
  | zero =>
    intro fuel' cs h _
    have : cs = [] := List.eq_nil_of_length_eq_zero (Nat.le_zero.mp h)
    subst this
    rw [findVarsFuel_nil, findVarsFuel_nil]
  | succ fuel ih =>
    intro fuel' cs h h'
    rcases cs with _ | ⟨c, rest⟩
    · rw [findVarsFuel_nil, findVarsFuel_nil]
    · rcases fuel' with _ | fuel'
      · simp at h'
      · rcases hm : tryMatchAt (c :: rest) with _ | ⟨va, rest2⟩
        · simp only [findVarsFuel, hm]
          exact ih fuel' rest (by simpa using Nat.le_of_succ_le_succ h)
            (by simpa using Nat.le_of_succ_le_succ h')
        · have hlen := tryMatchAt_length hm
          simp only [List.length_cons] at hlen h h'
          simp only [findVarsFuel, hm]
          rw [ih fuel' rest2 (by omega) (by omega)]

theorem findVars_cons_none {c : Char} {rest : List Char}
    (h : tryMatchAt (c :: rest) = none) : findVars (c :: rest) = findVars rest := by
  simp only [findVars, List.length_cons, findVarsFuel, h]

theorem findVars_cons_some {c : Char} {rest : List Char} {v : String} {rest' : List Char}
    (h : tryMatchAt (c :: rest) = some (v, rest')) :
    findVars (c :: rest) = v :: findVars rest' := by
  have hlen := tryMatchAt_length h
  simp only [List.length_cons] at hlen
  simp only [findVars, List.length_cons, findVarsFuel, h]
  rw [findVarsFuel_congr rest.length rest'.length rest' (by omega) (by omega)]

theorem renderFuel_nil (m : List (String × String)) : ∀ fuel, renderFuel m fuel [] = [] := by
  intro fuel; cases fuel <;> rfl

theorem renderFuel_congr (m : List (String × String)) : ∀ (fuel fuel' : Nat) (cs : List Char),
    cs.length ≤ fuel → cs.length ≤ fuel' → renderFuel m fuel cs = renderFuel m fuel' cs := by
  intro fuel
  induction fuel with
  | zero =>
    intro fuel' cs h _
    have : cs = [] := List.eq_nil_of_length_eq_zero (Nat.le_zero.mp h)
    subst this
    rw [renderFuel_nil, renderFuel_nil]
  | succ fuel ih =>
    intro fuel' cs h h'
    rcases cs with _ | ⟨c, rest⟩
    · rw [renderFuel_nil, renderFuel_nil]
    · rcases fuel' with _ | fuel'
      · simp at h'
      · rcases hm : tryMatchAt (c :: rest) with _ | ⟨va, rest2⟩
        · simp only [renderFuel, hm]
          rw [ih fuel' rest (by simpa using Nat.le_of_succ_le_succ h)
            (by simpa using Nat.le_of_succ_le_succ h')]
        · have hlen := tryMatchAt_length hm
          simp only [List.length_cons] at hlen h h'
          simp only [renderFuel, hm]
          rw [ih fuel' rest2 (by omega) (by omega)]

/-- The fuel-free view of `renderTemplate` on character lists. -/
def renderChars (m : List (String × String)) (cs : List Char) : List Char :=
  renderFuel m cs.length cs

theorem renderChars_nil (m : List (String × String)) : renderChars m [] = [] := rfl

theorem renderChars_cons_none (m : List (String × String)) {c : Char} {rest : List Char}
    (h : tryMatchAt (c :: rest) = none) : renderChars m (c :: rest) = c :: renderChars m rest := by
  simp only [renderChars, List.length_cons, renderFuel, h]

theorem renderChars_cons_some (m : List (String × String)) {c : Char} {rest : List Char}
    {v : String} {rest' : List Char} (h : tryMatchAt (c :: rest) = some (v, rest')) :
    renderChars m (c :: rest) =
      ((List.lookup v m).getD ("[" ++ v ++ "]")).data ++ renderChars m rest' := by
  have hlen := tryMatchAt_length h
  simp only [List.length_cons] at hlen
  simp only [renderChars, List.length_cons, renderFuel, h]
  rw [renderFuel_congr m rest.length rest'.length rest' (by omega) (by omega)]

theorem renderTemplate_eq_renderChars (t : String) (m : List (String × String)) :
    renderTemplate t m = String.mk (renderChars m t.data) := rfl

/-! ### findVars: soundness and completeness

`matchAtPos cs i w` says the regex pattern matches at position `i` of
`cs` capturing `w`; by `tryMatchAt_some_decomp` / `tryMatchAt_adequate`
this is equivalent to the existence of a decomposition
`cs = pre ++ "\x7b\x7b" ++ ws1 ++ w ++ ws2 ++ "\x7d\x7d" ++ post` with
`pre.length = i`. -/
def matchAtPos (cs : List Char) (i : Nat) (w : String) : Prop :=
  ∃ r, tryMatchAt (cs.drop i) = some (w, r)

/-- Every variable produced by the scan is matched at some position
(auxiliary, strong induction on a length bound). -/
theorem findVars_sound_aux : ∀ (n : Nat) (cs : List Char), cs.length ≤ n →
    ∀ (w : String), w ∈ findVars cs → ∃ i, matchAtPos cs i w := by
  intro n
  induction n using Nat.strong_induction_on with
  | _ n ih =>
    intro cs hcs
    rcases cs with _ | ⟨c, rest⟩
    · intro w hw; simp [findVars, findVarsFuel] at hw
    · intro w hw
      simp only [List.length_cons] at hcs
      rcases hm : tryMatchAt (c :: rest) with _ | ⟨v, rest2⟩
      · rw [findVars_cons_none hm] at hw
        rcases ih rest.length (by omega) rest (Nat.le_refl _) w hw with ⟨i, r, hi⟩
        exact ⟨i + 1, r, by simpa using hi⟩
      · rw [findVars_cons_some hm] at hw
        rcases List.mem_cons.mp hw with rfl | hw2
        · exact ⟨0, rest2, by simpa using hm⟩
        · have hlen := tryMatchAt_length hm
          simp only [List.length_cons] at hlen
          rcases ih rest2.length (by omega) rest2 (Nat.le_refl _) w hw2 with ⟨i, r, hi⟩
          rcases tryMatchAt_some_decomp hm with ⟨ws1, ws2, hcs, -, -, -⟩
          refine ⟨(lbrace :: lbrace :: (ws1 ++ v.data ++ ws2 ++ rbrace :: rbrace :: [])).length + i,
            r, ?_⟩
          have : (c :: rest).drop
              ((lbrace :: lbrace :: (ws1 ++ v.data ++ ws2 ++ rbrace :: rbrace :: [])).length + i) =
              rest2.drop i := by
            rw [hcs]
            have e : lbrace :: lbrace :: (ws1 ++ v.data ++ ws2 ++ rbrace :: rbrace :: rest2) =
                (lbrace :: lbrace :: (ws1 ++ v.data ++ ws2 ++ rbrace :: rbrace :: [])) ++ rest2 := by
              simp [List.append_assoc]
            rw [e, ← List.drop_drop, List.drop_left]
          rw [this]
          exact hi

theorem findVars_sound {cs : List Char} {w : String} (hw : w ∈ findVars cs) :
    ∃ i, matchAtPos cs i w :=
  findVars_sound_aux cs.length cs (Nat.le_refl _) w hw

/-- Dropping past a whole left factor of an append. -/
theorem drop_append_ge {A B : List α} {n : Nat} (h : A.length ≤ n) :
    (A ++ B).drop n = B.drop (n - A.length) := by
  have e : n = A.length + (n - A.length) := by omega
  conv_lhs => rw [e]
  rw [← List.drop_drop, List.drop_left]

theorem validIdent_all_identChar {v : String} (hv : validIdent v = true) :
    ∀ b ∈ v.data, isIdentChar b = true := by
  intro b hb
  rcases hvd : v.data with _ | ⟨c, ctail⟩
  · rw [hvd] at hb; simp at hb
  · rw [validIdent, hvd, Bool.and_eq_true, List.all_eq_true] at hv
    rcases hv with ⟨hstart, htail⟩
    rw [hvd] at hb
    rcases List.mem_cons.mp hb with rfl | hb2
    · exact identChar_of_identStart hstart
    · exact htail b hb2

/-- No successful match can begin strictly inside the region consumed by
another successful match: the interior of a consumed region contains no
opening brace. -/
theorem no_inner_match {mid rest2 : List Char} (hnb : ∀ a ∈ mid, a ≠ lbrace)
    (hne : mid ≠ []) {i : Nat} (h1 : 1 ≤ i) (h2 : i < 2 + mid.length) {w : String}
    {r : List Char}
    (hi : tryMatchAt ((lbrace :: lbrace :: (mid ++ rest2)).drop i) = some (w, r)) :
    False := by
  rcases tryMatchAt_some_decomp hi with ⟨ws1', ws2', hdec, -, -, -⟩
  rcases i with _ | i'
  · omega
  rcases i' with _ | j
  · rw [List.drop_succ_cons, List.drop_zero] at hdec
    rcases hmm : mid with _ | ⟨m0, mtail⟩
    · exact hne hmm
    · rw [hmm, List.cons_append] at hdec
      injection hdec with e1 e2
      injection e2 with e2a e2b
      exact hnb m0 (by rw [hmm]; simp) e2a
  · rw [List.drop_succ_cons, List.drop_succ_cons] at hdec
    have hjlt : j < mid.length := by omega
    rw [List.drop_append_of_le_length (Nat.le_of_lt hjlt)] at hdec
    rcases hdm : mid.drop j with _ | ⟨m0, mtail⟩
    · have hlen0 : mid.length - j = 0 := by rw [← List.length_drop, hdm]; rfl
      omega
    · rw [hdm, List.cons_append] at hdec
      injection hdec with e1 e2
      exact hnb m0 (List.drop_subset j mid (by rw [hdm]; simp)) e1

/-- Completeness of the scan: a match at any position is captured
(auxiliary, strong induction on a length bound). -/
theorem findVars_complete_aux : ∀ (n : Nat) (cs : List Char), cs.length ≤ n →
    ∀ (i : Nat) (w : String), matchAtPos cs i w → w ∈ findVars cs := by
  intro n
  induction n using Nat.strong_induction_on with
  | _ n ih =>
    intro cs hcs i w hmatch
    rcases hmatch with ⟨r, hi⟩
    rcases cs with _ | ⟨c, rest⟩
    · rw [List.drop_nil] at hi
      exact absurd hi (by simp [tryMatchAt])
    · simp only [List.length_cons] at hcs
      rcases hm : tryMatchAt (c :: rest) with _ | ⟨v, rest2⟩
      · rcases i with _ | j
        · rw [List.drop_zero, hm] at hi
          exact Option.noConfusion hi
        · rw [findVars_cons_none hm]
          rw [List.drop_succ_cons] at hi
          exact ih rest.length (by omega) rest (Nat.le_refl _) j w ⟨r, hi⟩
      · rw [findVars_cons_some hm]
        rcases tryMatchAt_some_decomp hm with ⟨ws1, ws2, hcseq, hws1, hws2, hv⟩
        have hsplit : c :: rest =
            lbrace :: lbrace :: ((ws1 ++ v.data ++ ws2 ++ [rbrace, rbrace]) ++ rest2) := by
          rw [hcseq]; simp [List.append_assoc]
        have hr2len : rest2.length < n := by
          have hl := tryMatchAt_length hm
          simp only [List.length_cons] at hl
          omega
        rcases i with _ | i'
        · rw [List.drop_zero, hm] at hi
          simp only [Option.some.injEq, Prod.mk.injEq] at hi
          rcases hi with ⟨rfl, rfl⟩
          exact List.mem_cons_self _ _
        · by_cases hlt : i' + 1 < 2 + (ws1 ++ v.data ++ ws2 ++ [rbrace, rbrace]).length
          · exfalso
            rw [hsplit] at hi
            have hnb : ∀ a ∈ ws1 ++ v.data ++ ws2 ++ [rbrace, rbrace], a ≠ lbrace := by
              have hA : ∀ a ∈ ws1, a ≠ lbrace := fun a ha => space_ne_lbrace (hws1 a ha)
              have hB : ∀ a ∈ v.data, a ≠ lbrace :=
                fun a ha => identChar_ne_lbrace (validIdent_all_identChar hv a ha)
              have hC : ∀ a ∈ ws2, a ≠ lbrace := fun a ha => space_ne_lbrace (hws2 a ha)
              have hD : ∀ a ∈ ([rbrace, rbrace] : List Char), a ≠ lbrace := by decide
              simp only [List.forall_mem_append]
              exact ⟨⟨⟨hA, hB⟩, hC⟩, hD⟩
            have hne : (ws1 ++ v.data ++ ws2 ++ [rbrace, rbrace] : List Char) ≠ [] := by
              intro h
              have h2 := congrArg List.length h
              simp [List.length_append] at h2
            exact no_inner_match hnb hne (Nat.le_add_left 1 i') hlt hi
          · rw [hsplit] at hi
            have hge := Nat.le_of_not_lt hlt
            have e : lbrace :: lbrace ::
                ((ws1 ++ v.data ++ ws2 ++ [rbrace, rbrace]) ++ rest2) =
                (lbrace :: lbrace :: (ws1 ++ v.data ++ ws2 ++ [rbrace, rbrace])) ++ rest2 := by
              simp
            rw [e, drop_append_ge (by simp only [List.length_cons]; omega)] at hi
            exact List.mem_cons_of_mem v
              (ih rest2.length hr2len rest2 (Nat.le_refl _) _ w ⟨r, hi⟩)

theorem findVars_complete {cs : List Char} {w : String} {i : Nat}
    (h : matchAtPos cs i w) : w ∈ findVars cs :=
  findVars_complete_aux cs.length cs (Nat.le_refl _) i w h

/-! ### dedupFirst -/

theorem mem_dedupFirst {a : String} : ∀ {l : List String}, a ∈ dedupFirst l ↔ a ∈ l := by
  intro l
  induction l with
  | nil => simp [dedupFirst]
  | cons x xs ih =>
    simp only [dedupFirst, List.mem_cons, List.mem_filter]
    constructor
    · rintro (rfl | ⟨h1, h2⟩)
      · exact Or.inl rfl
      · exact Or.inr (ih.mp h1)
    · rintro (rfl | h)
      · exact Or.inl rfl
      · by_cases hax : a = x
        · exact Or.inl hax
        · exact Or.inr ⟨ih.mpr h, by simpa using hax⟩

theorem nodup_dedupFirst : ∀ (l : List String), (dedupFirst l).Nodup := by
  intro l
  induction l with
  | nil => simp [dedupFirst]
  | cons x xs ih =>
    simp only [dedupFirst]
    refine List.Nodup.cons ?_ (List.Nodup.filter _ ih)
    intro hmem
    rcases List.mem_filter.mp hmem with ⟨-, hne⟩
    simp at hne

/-! ### The specification-side reading of variable extraction

`WrappedIdent t w`, written from the spec's words: `w` is a simple
identifier that appears in `t` wrapped in double-brace delimiters
(with optional surrounding whitespace inside the delimiters). -/
def WrappedIdent (t : String) (w : String) : Prop :=
  validIdent w = true ∧ ∃ pre ws1 ws2 post,
    t.data = pre ++ lbrace :: lbrace :: (ws1 ++ w.data ++ ws2 ++ rbrace :: rbrace :: post) ∧
    (∀ a ∈ ws1, isPySpace a = true) ∧ (∀ a ∈ ws2, isPySpace a = true)

theorem wrappedIdent_of_matchAtPos {t : String} {i : Nat} {w : String}
    (h : matchAtPos t.data i w) : WrappedIdent t w := by
  rcases h with ⟨r, hi⟩
  rcases tryMatchAt_some_decomp hi with ⟨ws1, ws2, hdec, hws1, hws2, hv⟩
  refine ⟨hv, t.data.take i, ws1, ws2, r, ?_, hws1, hws2⟩
  conv_lhs => rw [← List.take_append_drop i t.data]
  rw [hdec]

theorem matchAtPos_of_wrappedIdent {t : String} {w : String}
    (h : WrappedIdent t w) : ∃ i, matchAtPos t.data i w := by
  rcases h with ⟨hv, pre, ws1, ws2, post, hdec, hws1, hws2⟩
  refine ⟨pre.length, post, ?_⟩
  rw [hdec, List.drop_left]
  exact tryMatchAt_adequate ws1 ws2 w post hws1 hws2 hv

/-- Full characterisation of `extract_template_variables`: membership is
exactly "appears as a double-brace-wrapped identifier". -/
theorem extract_mem_iff (t : String) (w : String) :
    w ∈ extract_template_variables t ↔ WrappedIdent t w := by
  rw [extract_template_variables, mem_dedupFirst]
  constructor
  · intro h
    rcases findVars_sound h with ⟨i, hm⟩
    exact wrappedIdent_of_matchAtPos hm
  · intro h
    rcases matchAtPos_of_wrappedIdent h with ⟨i, hm⟩
    exact findVars_complete hm

/-! ### Characterisation of the dispatch loop -/

/-- The attachment resolution of a row does not raise. -/
def resolveOk (ctx : Ctx) (r : Row) : Prop :=
  ∃ p, resolvePdfPath ctx.pdfFolder r.pdf ctx.fileExists = Except.ok p

/-- Effect of one loop iteration when attachment resolution does not
raise: the recipient is attempted, exactly one of the sent/failed
accumulators grows by one entry (decided by the transport outcome), and
one progress event is appended. -/
theorem processRow_ok (ctx : Ctx) (tvars : List String) (total : Nat) (row : Row)
    (st : RunState) (h : resolveOk ctx row) :
    ∃ ev, processRow ctx tvars total row st = Except.ok (RunState.mk
      (st.sentEmails ++ sentOne ctx row)
      (st.failedEmails ++ failedOne ctx row)
      (st.sentCount + (sentOne ctx row).length)
      (st.attemptedRecipients ++ [row.email])
      (st.events ++ [ev])) := by
  rcases h with ⟨p, hp⟩
  rcases ht : ctx.transport row.email with e | mid
  · refine ⟨?_, ?_⟩
    case _ => exact
      { reportedProcessed := row.label + 1
        total := total
        currentRecipient := row.email
        recentSent := lastN 10 st.sentEmails
        recentFailed := lastN 10 (st.failedEmails ++ [row.email ++ ": " ++ e]) }
    simp only [processRow, hp, send_single_email, ht, sentOne, failedOne]
    simp [RunState.mk.injEq]
  · refine ⟨?_, ?_⟩
    case _ => exact
      { reportedProcessed := row.label + 1
        total := total
        currentRecipient := row.email
        recentSent := lastN 10 (st.sentEmails ++ [row.email])
        recentFailed := lastN 10 st.failedEmails }
    simp only [processRow, hp, send_single_email, ht, sentOne, failedOne]
    simp [RunState.mk.injEq]

/-- A run whose cancellation flag is never set and whose rows all
resolve their attachments ends `Completed`, with the accumulators fully
described by the transport outcomes, one progress event per row. -/
theorem runBulkAux_completed (ctx : Ctx) (tvars : List String) (total : Nat)
    (hc : ∀ n, ctx.cancel n = false) :
    ∀ (df : List Row) (k : Nat) (st : RunState), (∀ r ∈ df, resolveOk ctx r) →
    ∃ evs, runBulkAux ctx tvars total df k st = RunResult.completed (RunState.mk
      (st.sentEmails ++ sentOf ctx df)
      (st.failedEmails ++ failedOf ctx df)
      (st.sentCount + (sentOf ctx df).length)
      (st.attemptedRecipients ++ df.map Row.email)
      evs) ∧ evs.length = st.events.length + df.length := by
  intro df
  induction df with
  | nil =>
    intro k st _
    refine ⟨st.events, ?_, by simp⟩
    simp [runBulkAux, hc k, sentOf, failedOf]
  | cons r rest ih =>
    intro k st hok
    rcases processRow_ok ctx tvars total r st (hok r (by simp)) with ⟨ev, hstep⟩
    rcases ih (k + 1) (RunState.mk
        (st.sentEmails ++ sentOne ctx r)
        (st.failedEmails ++ failedOne ctx r)
        (st.sentCount + (sentOne ctx r).length)
        (st.attemptedRecipients ++ [r.email])
        (st.events ++ [ev])) (fun x hx => hok x (by simp [hx])) with ⟨evs, hrun, hlen⟩
    refine ⟨evs, ?_, ?_⟩
    · simp only [runBulkAux, hc k, if_false, hstep, hrun]
      simp [sentOf, failedOf, List.append_assoc, RunState.mk.injEq, List.length_append]
      omega
    · simp only [List.length_append, List.length_cons] at hlen ⊢
      simp [hlen]
      omega

/-- A run whose cancellation flag first reads true at check `k + m`
(after `m` rows were processed) breaks out of the loop and ends
`Cancelled`: only the first `m` rows are attempted, their outcomes are
kept, and exactly `m` progress events were emitted. -/
theorem runBulkAux_cancelled (ctx : Ctx) (tvars : List String) (total : Nat) :
    ∀ (df : List Row) (k m : Nat) (st : RunState), m ≤ df.length →
    (∀ r ∈ df.take m, resolveOk ctx r) →
    (∀ j, j < m → ctx.cancel (k + j) = false) → ctx.cancel (k + m) = true →
    ∃ evs, runBulkAux ctx tvars total df k st = RunResult.cancelled (RunState.mk
      (st.sentEmails ++ sentOf ctx (df.take m))
      (st.failedEmails ++ failedOf ctx (df.take m))
      (st.sentCount + (sentOf ctx (df.take m)).length)
      (st.attemptedRecipients ++ (df.take m).map Row.email)
      evs) ∧ evs.length = st.events.length + m := by
  intro df
  induction df with
  | nil =>
    intro k m st hm _ _ htrue
    have hm0 : m = 0 := Nat.le_zero.mp (by simpa using hm)
    subst hm0
    refine ⟨st.events, ?_, by simp⟩
    simp only [Nat.add_zero] at htrue
    simp [runBulkAux, htrue, sentOf, failedOf]
  | cons r rest ih =>
    intro k m st hm hok hfalse htrue
    rcases m with _ | m'
    · refine ⟨st.events, ?_, by simp⟩
      simp only [Nat.add_zero] at htrue
      simp [runBulkAux, htrue, sentOf, failedOf]
    · have hk : ctx.cancel k = false := by
        have := hfalse 0 (Nat.succ_pos m')
        simpa using this
      have hokr : resolveOk ctx r := hok r (by simp)
      rcases processRow_ok ctx tvars total r st hokr with ⟨ev, hstep⟩
      have hok' : ∀ x ∈ rest.take m', resolveOk ctx x := by
        intro x hx
        exact hok x (by simp [hx])
      have hfalse' : ∀ j, j < m' → ctx.cancel (k + 1 + j) = false := by
        intro j hj
        have e : k + 1 + j = k + (j + 1) := by omega
        rw [e]
        exact hfalse (j + 1) (by omega)
      have htrue' : ctx.cancel (k + 1 + m') = true := by
        have e : k + 1 + m' = k + (m' + 1) := by omega
        rw [e]
        exact htrue
      rcases ih (k + 1) m' (RunState.mk
          (st.sentEmails ++ sentOne ctx r)
          (st.failedEmails ++ failedOne ctx r)
          (st.sentCount + (sentOne ctx r).length)
          (st.attemptedRecipients ++ [r.email])
          (st.events ++ [ev]))
        (by simpa using Nat.le_of_succ_le_succ hm) hok' hfalse' htrue' with ⟨evs, hrun, hlen⟩
    -- take (m'+1) (r :: rest) = r :: take m' rest
      refine ⟨evs, ?_, ?_⟩
      · simp only [runBulkAux, hk, if_false, hstep, hrun]
        simp [sentOf, failedOf, List.append_assoc, RunState.mk.injEq, List.length_append]
        omega
      · simp only [List.length_append, List.length_cons] at hlen ⊢
        simp [hlen]
        omega

/-- Each row contributes exactly one entry across the two accumulators. -/
theorem sentOf_failedOf_length (ctx : Ctx) :
    ∀ (df : List Row), (sentOf ctx df).length + (failedOf ctx df).length = df.length := by
  intro df
  induction df with
  | nil => simp [sentOf, failedOf]
  | cons r rest ih =>
    simp only [sentOf, failedOf, List.length_append, List.length_cons]
    rcases ht : ctx.transport r.email with e | mid
    · simp only [sentOne, failedOne, ht]
      simp only [List.length_cons, List.length_nil]
      omega
    · simp only [sentOne, failedOne, ht]
      simp only [List.length_cons, List.length_nil]
      omega

/-! ### drop_duplicates characterisation -/

theorem dropDupAux_sublist : ∀ (df : List Row) (seen : List String),
    List.Sublist (dropDupAux df seen) df := by
  intro df
  induction df with
  | nil => intro seen; simp [dropDupAux]
  | cons r rest ih =>
    intro seen
    simp only [dropDupAux]
    split
    · exact List.Sublist.cons r (ih seen)
    · exact List.Sublist.cons₂ r (ih _)

theorem dropDupAux_nodup : ∀ (df : List Row) (seen : List String),
    ((dropDupAux df seen).map Row.email).Nodup ∧
      ∀ e ∈ (dropDupAux df seen).map Row.email, e ∉ seen := by
  intro df
  induction df with
  | nil => intro seen; simp [dropDupAux]
  | cons r rest ih =>
    intro seen
    simp only [dropDupAux]
    split
    · exact ih seen
    · next hmem =>
      rcases ih (r.email :: seen) with ⟨hnd, hni⟩
      constructor
      · simp only [List.map_cons]
        refine List.Nodup.cons ?_ hnd
        intro hin
        exact hni r.email hin (List.mem_cons_self _ _)
      · intro e he
        simp only [List.map_cons, List.mem_cons] at he
        rcases he with rfl | he2
        · exact hmem
        · intro hcontra
          exact hni e he2 (List.mem_cons_of_mem _ hcontra)

theorem dropDupAux_find : ∀ (df : List Row) (seen : List String) (e : String), e ∉ seen →
    (dropDupAux df seen).find? (fun u => u.email == e) =
      df.find? (fun x => x.email == e) := by
  intro df
  induction df with
  | nil => intro seen e _; simp [dropDupAux]
  | cons r rest ih =>
    intro seen e he
    simp only [dropDupAux]
    split
    · next hmem =>
      have hne : r.email ≠ e := fun hc => he (hc ▸ hmem)
      rw [List.find?_cons_of_neg rest (by simp [hne])]
      exact ih seen e he
    · next hmem =>
      by_cases heq : r.email = e
      · rw [List.find?_cons_of_pos _ (by simp [heq]), List.find?_cons_of_pos _ (by simp [heq])]
      · rw [List.find?_cons_of_neg _ (by simp [heq]), List.find?_cons_of_neg _ (by simp [heq])]
        refine ih (r.email :: seen) e ?_
        intro hc
        rcases List.mem_cons.mp hc with h1 | h2
        · exact heq h1.symm
        · exact he h2

theorem find_isSome_of_mem : ∀ (df : List Row) (e : String), e ∈ df.map Row.email →
    (df.find? (fun x => x.email == e)).isSome = true := by
  intro df
  induction df with
  | nil => intro e he; simp at he
  | cons r rest ih =>
    intro e he
    simp only [List.map_cons, List.mem_cons] at he
    by_cases heq : r.email = e
    · rw [List.find?_cons_of_pos _ (by simp [heq])]
      rfl
    · rw [List.find?_cons_of_neg _ (by simp [heq])]
      rcases he with h1 | h2
      · exact absurd h1.symm heq
      · exact ih e h2

/-! ### Rendering helper lemmas -/

theorem tryMatchAt_cons_ne {c : Char} (l : List Char) (hc : c ≠ lbrace) :
    tryMatchAt (c :: l) = none := by
  rcases l with _ | ⟨c2, l'⟩
  · rfl
  · simp [tryMatchAt, hc]

theorem resolveOk_no_folder (ctx : Ctx) (r : Row) (h : ctx.pdfFolder = none) :
    resolveOk ctx r := by
  refine ⟨none, ?_⟩
  simp [resolvePdfPath, h, strTruthy]

theorem string_mk_data (s : String) : String.mk s.data = s := by
  cases s
  rfl

/-- Rendering a template that references a variable absent from the
mapping produces the bracketed variable name and, in particular, never
raises: the renderer is a total function. -/
theorem renderTemplate_missing_var (v : String) (m : List (String × String))
    (hv : validIdent v = true) (hmiss : List.lookup v m = none) :
    renderTemplate ("\x7b\x7b" ++ v ++ "\x7d\x7d") m = "[" ++ v ++ "]" := by
  have hm : tryMatchAt (lbrace :: lbrace :: (v.data ++ [rbrace, rbrace])) = some (v, []) := by
    have h := tryMatchAt_adequate [] [] v [] (by simp) (by simp) hv
    simpa using h
  have hdata : ("\x7b\x7b" ++ v ++ "\x7d\x7d").data =
      lbrace :: lbrace :: (v.data ++ [rbrace, rbrace]) := by
    obtain ⟨vd⟩ := v
    show (['\x7b', '\x7b'] ++ vd) ++ ['\x7d', '\x7d'] =
      lbrace :: lbrace :: (vd ++ [rbrace, rbrace])
    simp [lbrace, rbrace]
  rw [renderTemplate_eq_renderChars, hdata, renderChars_cons_some m hm, hmiss]
  rw [Option.getD_none, renderChars_nil, List.append_nil, string_mk_data]

/-! ### Concrete data for witnesses -/

def demoRow (e : String) (lab : Nat) : Row :=
  { email := e, fields := [], pdf := none, label := lab }

def demoTransport (failing : List String) : String → Except String String :=
  fun e => if e ∈ failing then Except.error "boom" else Except.ok "msgid"

def demoCtx (cancelFlag : Nat → Bool) (failing : List String) : Ctx :=
  { senderName := "E-Cell Team"
    senderEmail := "no-reply@ecell.in"
    subject := "E-Cell Update"
    htmlBody := "<p>Hello</p>"
    pdfFolder := none
    transport := demoTransport failing
    fileExists := fun _ => false
    cancel := cancelFlag }

theorem run_bulk_unfold (ctx : Ctx) (df : List Row) :
    run_bulk_with_progress ctx df =
      runBulkAux ctx (extract_template_variables ctx.htmlBody) df.length df 0 initState := rfl

/-! ### Claim theorems -/

/-- C1: for every recipient table, a run of the bulk dispatch loop that
completes without cancellation records every row as either sent or
failed — `sent.length + failed.length = df.length`, with the sent
counter equal to the sent list's length — and at every point during the
run (the state after `k` iterations, which is exactly the final state of
the same loop run on the `k`-row prefix, since the loop threads its
state left to right) sent plus failed plus the not-yet-processed
remainder equals the total row count. -/
theorem C1_sent_failed_partition (ctx : Ctx) (df : List Row) (k : Nat)
    (hk : k ≤ df.length) (hcancel : ∀ n, ctx.cancel n = false)
    (hok : ∀ r ∈ df, resolveOk ctx r) :
    (isCompletedRun (run_bulk_with_progress ctx df) = true ∧
      (resultState (run_bulk_with_progress ctx df)).sentEmails.length +
        (resultState (run_bulk_with_progress ctx df)).failedEmails.length = df.length ∧
      (resultState (run_bulk_with_progress ctx df)).sentCount =
        (resultState (run_bulk_with_progress ctx df)).sentEmails.length) ∧
    ((resultState (run_bulk_with_progress ctx (df.take k))).sentEmails.length +
      (resultState (run_bulk_with_progress ctx (df.take k))).failedEmails.length +
      (df.length - k) = df.length) := by
  obtain ⟨evs, heq, hlen⟩ := runBulkAux_completed ctx (extract_template_variables ctx.htmlBody)
    df.length hcancel df 0 initState hok
  obtain ⟨evs2, heq2, hlen2⟩ := runBulkAux_completed ctx (extract_template_variables ctx.htmlBody)
    (df.take k).length hcancel (df.take k) 0 initState
    (fun r hr => hok r (List.take_subset k df hr))
  simp only [run_bulk_unfold]
  rw [heq, heq2]
  simp only [isCompletedRun, resultState, initState, List.nil_append]
  refine ⟨⟨trivial, ?_, ?_⟩, ?_⟩
  · exact sentOf_failedOf_length ctx df
  · simp
  · have h1 := sentOf_failedOf_length ctx (df.take k)
    have h2 : (df.take k).length = k := by rw [List.length_take]; omega
    omega

def c1ctx : Ctx := demoCtx (fun _ => false) ["b@x"]

def c1df : List Row := [demoRow "a@x" 0, demoRow "b@x" 1]

theorem C1_sent_failed_partition_witness :
    (isCompletedRun (run_bulk_with_progress c1ctx c1df) = true ∧
      (resultState (run_bulk_with_progress c1ctx c1df)).sentEmails.length +
        (resultState (run_bulk_with_progress c1ctx c1df)).failedEmails.length = c1df.length ∧
      (resultState (run_bulk_with_progress c1ctx c1df)).sentCount =
        (resultState (run_bulk_with_progress c1ctx c1df)).sentEmails.length) ∧
    ((resultState (run_bulk_with_progress c1ctx (c1df.take 1))).sentEmails.length +
      (resultState (run_bulk_with_progress c1ctx (c1df.take 1))).failedEmails.length +
      (c1df.length - 1) = c1df.length) :=
  C1_sent_failed_partition c1ctx c1df 1 (by decide) (fun _ => rfl)
    (fun r _ => resolveOk_no_folder c1ctx r rfl)

/-- C2: when the transport raises for some rows of the table, the loop
records a `Failed` entry `recipient ++ ": " ++ description` for exactly
those rows, does not abort — every row is still attempted, in order, and
gets its progress event — and the run still ends in the completed state,
with the sent/failed lists exactly the transport-partition of the
table. -/
theorem C2_partial_failure_isolation (ctx : Ctx) (df : List Row)
    (hcancel : ∀ n, ctx.cancel n = false) (hok : ∀ r ∈ df, resolveOk ctx r) :
    isCompletedRun (run_bulk_with_progress ctx df) = true ∧
    (resultState (run_bulk_with_progress ctx df)).attemptedRecipients = df.map Row.email ∧
    (resultState (run_bulk_with_progress ctx df)).sentEmails = sentOf ctx df ∧
    (resultState (run_bulk_with_progress ctx df)).failedEmails = failedOf ctx df ∧
    (resultState (run_bulk_with_progress ctx df)).events.length = df.length := by
  obtain ⟨evs, heq, hlen⟩ := runBulkAux_completed ctx (extract_template_variables ctx.htmlBody)
    df.length hcancel df 0 initState hok
  simp only [run_bulk_unfold]
  rw [heq]
  simp only [isCompletedRun, resultState, initState, List.nil_append]
  refine ⟨trivial, trivial, trivial, trivial, ?_⟩
  simpa [initState] using hlen

def c2ctx : Ctx := demoCtx (fun _ => false) ["r3@x"]

def c2df : List Row :=
  [demoRow "r1@x" 0, demoRow "r2@x" 1, demoRow "r3@x" 2, demoRow "r4@x" 3, demoRow "r5@x" 4]

theorem C2_partial_failure_isolation_witness :
    isCompletedRun (run_bulk_with_progress c2ctx c2df) = true ∧
    (resultState (run_bulk_with_progress c2ctx c2df)).attemptedRecipients = c2df.map Row.email ∧
    (resultState (run_bulk_with_progress c2ctx c2df)).sentEmails = sentOf c2ctx c2df ∧
    (resultState (run_bulk_with_progress c2ctx c2df)).failedEmails = failedOf c2ctx c2df ∧
    (resultState (run_bulk_with_progress c2ctx c2df)).events.length = c2df.length :=
  C2_partial_failure_isolation c2ctx c2df (fun _ => rfl)
    (fun r _ => resolveOk_no_folder c2ctx r rfl)

/-- C3: if the cancellation flag first reads set at the check after
recipient `i` was processed (it read clear at every check up to and
including the one before row `i`, and the external setter never clears
it during a run), the loop breaks: exactly rows `0..i` were attempted —
no send attempt is made for any later index — row `i`'s own outcome is
kept in the accumulators, exactly `i+1` progress events exist, and the
run ends in the cancelled state. -/
theorem C3_cancellation_sticky (ctx : Ctx) (df : List Row) (i : Nat)
    (hi : i + 1 ≤ df.length) (hok : ∀ r ∈ df.take (i + 1), resolveOk ctx r)
    (hbefore : ∀ j, j ≤ i → ctx.cancel j = false) (hat : ctx.cancel (i + 1) = true)
    (_hsticky : ∀ n, ctx.cancel n = true → ctx.cancel (n + 1) = true) :
    isCancelledRun (run_bulk_with_progress ctx df) = true ∧
    (resultState (run_bulk_with_progress ctx df)).attemptedRecipients =
      (df.take (i + 1)).map Row.email ∧
    (resultState (run_bulk_with_progress ctx df)).sentEmails = sentOf ctx (df.take (i + 1)) ∧
    (resultState (run_bulk_with_progress ctx df)).failedEmails =
      failedOf ctx (df.take (i + 1)) ∧
    (resultState (run_bulk_with_progress ctx df)).events.length = i + 1 := by
  obtain ⟨evs, heq, hlen⟩ := runBulkAux_cancelled ctx (extract_template_variables ctx.htmlBody)
    df.length df 0 (i + 1) initState hi hok
    (fun j hj => by simpa using hbefore j (by omega)) (by simpa using hat)
  simp only [run_bulk_unfold]
  rw [heq]
  simp only [isCancelledRun, resultState, initState, List.nil_append]
  refine ⟨trivial, trivial, trivial, trivial, ?_⟩
  simpa [initState] using hlen

def c3ctx : Ctx := demoCtx (fun k => decide (1 ≤ k)) []

def c3df : List Row := [demoRow "a@x" 0, demoRow "b@x" 1, demoRow "c@x" 2]

theorem C3_cancellation_sticky_witness :
    isCancelledRun (run_bulk_with_progress c3ctx c3df) = true ∧
    (resultState (run_bulk_with_progress c3ctx c3df)).attemptedRecipients =
      (c3df.take (0 + 1)).map Row.email ∧
    (resultState (run_bulk_with_progress c3ctx c3df)).sentEmails =
      sentOf c3ctx (c3df.take (0 + 1)) ∧
    (resultState (run_bulk_with_progress c3ctx c3df)).failedEmails =
      failedOf c3ctx (c3df.take (0 + 1)) ∧
    (resultState (run_bulk_with_progress c3ctx c3df)).events.length = 0 + 1 :=
  C3_cancellation_sticky c3ctx c3df 0 (by decide)
    (fun r _ => resolveOk_no_folder c3ctx r rfl)
    (fun j hj => by
      have hj0 : j = 0 := Nat.le_zero.mp hj
      subst hj0
      rfl)
    rfl
    (fun n h => by
      simp only [demoCtx, c3ctx, decide_eq_true_eq] at h ⊢
      omega)

/-- C4: `drop_duplicates(subset=['email'])` dispatches exactly one row
per distinct email: the de-duplicated table is a sublist of the input
(so input order of the survivors is kept), its emails are pairwise
distinct, and for any input row the unique representative of its email
is precisely the first input row carrying that email. -/
theorem C4_dedup_first_occurrence (df : List Row) (r : Row) (hr : r ∈ df) :
    List.Sublist (unique_df df) df ∧
    ((unique_df df).map Row.email).Nodup ∧
    (unique_df df).find? (fun u => u.email == r.email) =
      df.find? (fun x => x.email == r.email) ∧
    ((unique_df df).find? (fun u => u.email == r.email)).isSome = true := by
  refine ⟨dropDupAux_sublist df [], (dropDupAux_nodup df []).1, ?_, ?_⟩
  · exact dropDupAux_find df [] r.email (by simp)
  · simp only [unique_df]
    rw [dropDupAux_find df [] r.email (by simp)]
    exact find_isSome_of_mem df r.email (List.mem_map_of_mem Row.email hr)

def c4df : List Row := [demoRow "a@x" 0, demoRow "a@x" 1, demoRow "b@x" 2]

theorem C4_dedup_first_occurrence_witness :
    List.Sublist (unique_df c4df) c4df ∧
    ((unique_df c4df).map Row.email).Nodup ∧
    (unique_df c4df).find? (fun u => u.email == (demoRow "a@x" 1).email) =
      c4df.find? (fun x => x.email == (demoRow "a@x" 1).email) ∧
    ((unique_df c4df).find? (fun u => u.email == (demoRow "a@x" 1).email)).isSome = true :=
  C4_dedup_first_occurrence c4df (demoRow "a@x" 1) (by decide)

/-- C5: rendering substitutes each referenced variable that has a
mapping entry and renders the bracketed variable name for a referenced
variable with no entry, never raising on a missing key:
`render "Hi \x7b\x7bname\x7d\x7d" [] = "Hi [name]"`,
`render "Hi \x7b\x7bname\x7d\x7d" [("name","Ann")] = "Hi Ann"`, and in
general a placeholder for any identifier absent from the mapping renders
to the bracketed identifier (the renderer is a total function — there is
no exceptional path). -/
theorem C5_render_fallback (v : String) (m : List (String × String))
    (hv : validIdent v = true) (hmiss : List.lookup v m = none) :
    renderTemplate "Hi \x7b\x7bname\x7d\x7d" [] = "Hi [name]" ∧
    renderTemplate "Hi \x7b\x7bname\x7d\x7d" [("name", "Ann")] = "Hi Ann" ∧
    renderTemplate ("\x7b\x7b" ++ v ++ "\x7d\x7d") m = "[" ++ v ++ "]" := by
  refine ⟨by decide, by decide, ?_⟩
  exact renderTemplate_missing_var v m hv hmiss

theorem C5_render_fallback_witness :
    renderTemplate "Hi \x7b\x7bname\x7d\x7d" [] = "Hi [name]" ∧
    renderTemplate "Hi \x7b\x7bname\x7d\x7d" [("name", "Ann")] = "Hi Ann" ∧
    renderTemplate ("\x7b\x7b" ++ "college" ++ "\x7d\x7d") [("name", "Ann")] =
      "[" ++ "college" ++ "]" :=
  C5_render_fallback "college" [("name", "Ann")] (by decide) rfl

/-- C6: variable extraction returns exactly the distinct identifiers
(letters, digits, underscore, starting with a letter or underscore) that
appear wrapped in double-brace delimiters — membership is equivalent to
the existence of such a wrapped occurrence, so the result is independent
of scan order — with no duplicates; the empty template, a template with
no placeholders, and malformed or non-bare-identifier brace expressions
yield nothing. -/
theorem C6_extract_characterisation (t v w : String)
    (hv : v ∈ extract_template_variables t) (hw : WrappedIdent t w) :
    extract_template_variables "\x7b\x7ba\x7d\x7d and \x7b\x7b b \x7d\x7d" = ["a", "b"] ∧
    extract_template_variables "no vars here" = [] ∧
    extract_template_variables "" = [] ∧
    extract_template_variables "\x7b\x7b a|b \x7d\x7d" = [] ∧
    extract_template_variables "\x7b \x7ba\x7d\x7d" = [] ∧
    extract_template_variables "\x7b\x7ba\x7d" = [] ∧
    (extract_template_variables t).Nodup ∧
    WrappedIdent t v ∧
    w ∈ extract_template_variables t := by
  refine ⟨by decide, by decide, by decide, by decide, by decide, by decide, ?_, ?_, ?_⟩
  · exact nodup_dedupFirst (findVars t.data)
  · exact (extract_mem_iff t v).mp hv
  · exact (extract_mem_iff t w).mpr hw

theorem C6_extract_characterisation_witness :
    extract_template_variables "\x7b\x7ba\x7d\x7d and \x7b\x7b b \x7d\x7d" = ["a", "b"] ∧
    extract_template_variables "no vars here" = [] ∧
    extract_template_variables "" = [] ∧
    extract_template_variables "\x7b\x7b a|b \x7d\x7d" = [] ∧
    extract_template_variables "\x7b \x7ba\x7d\x7d" = [] ∧
    extract_template_variables "\x7b\x7ba\x7d" = [] ∧
    (extract_template_variables "\x7b\x7ba\x7d\x7d and \x7b\x7b b \x7d\x7d").Nodup ∧
    WrappedIdent "\x7b\x7ba\x7d\x7d and \x7b\x7b b \x7d\x7d" "a" ∧
    "b" ∈ extract_template_variables "\x7b\x7ba\x7d\x7d and \x7b\x7b b \x7d\x7d" :=
  C6_extract_characterisation "\x7b\x7ba\x7d\x7d and \x7b\x7b b \x7d\x7d" "a" "b"
    (by decide)
    ⟨by decide, "\x7b\x7ba\x7d\x7d and ".data, [' '], [' '], [], by decide, by decide, by decide⟩

def c7ctx : Ctx := { demoCtx (fun _ => false) [] with
  subject := "Hi \x7b\x7bname\x7d\x7d", htmlBody := "Body" }

def c7ctx2 : Ctx := { c7ctx with subject := "Totally different subject" }

/-- C7 counterexample: with subject `Hi \x7b\x7bname\x7d\x7d`, body
`Body` and row variables `name := Ann`, the built message carries the
subject verbatim (not `Hi Ann`), and the variable `name`, referenced
only in the subject, is not discovered — refuting the claim that the
subject is rendered per row and that variable discovery covers
subject and body as one combined text. -/
theorem C7_counterexample :
    (buildMessage c7ctx "r@x" [("name", "Ann")] none).subject = "Hi \x7b\x7bname\x7d\x7d" ∧
    (buildMessage c7ctx "r@x" [("name", "Ann")] none).subject ≠ "Hi Ann" ∧
    ¬ "name" ∈ extract_template_variables c7ctx.htmlBody := by decide

/-- C7 (amended): only the HTML body is rendered through the template
renderer with the row's variables; the subject is attached to the
message verbatim, without rendering, and variable discovery scans only
the body — two configurations with the same body but different subjects
discover the same variables, so a variable referenced only in the
subject is neither detected nor substituted. -/
theorem C7_subject_verbatim (ctx ctx2 : Ctx) (recipient : String)
    (tv : List (String × String)) (p : Option String)
    (hsame : ctx2.htmlBody = ctx.htmlBody) :
    (buildMessage ctx recipient tv p).subject = ctx.subject ∧
    (buildMessage ctx recipient tv p).htmlPart = renderTemplate ctx.htmlBody tv ∧
    extract_template_variables ctx2.htmlBody = extract_template_variables ctx.htmlBody := by
  refine ⟨rfl, rfl, ?_⟩
  rw [hsame]

theorem C7_subject_verbatim_witness :
    (buildMessage c7ctx "r@x" [("name", "Ann")] none).subject = c7ctx.subject ∧
    (buildMessage c7ctx "r@x" [("name", "Ann")] none).htmlPart =
      renderTemplate c7ctx.htmlBody [("name", "Ann")] ∧
    extract_template_variables c7ctx2.htmlBody = extract_template_variables c7ctx.htmlBody :=
  C7_subject_verbatim c7ctx c7ctx2 "r@x" [("name", "Ann")] none rfl

/-- C8 counterexample: in the event order of one send attempt the
rate-limiter permit is acquired before the message is rendered and
built (the whole body of `send_single_email` runs inside
`async with limiter:`), refuting the claim that the permit is debited
only after rendering and building, immediately before the network
call. -/
theorem C8_counterexample :
    ¬ (eventPos SendEvent.render < eventPos SendEvent.acquire ∧
       eventPos SendEvent.build < eventPos SendEvent.acquire) := by decide

/-- C8 (amended): exactly one rate-limiter permit is consumed per send
attempt; it is acquired at the start of the attempt — before rendering,
building, and the network call — and it is never refunded: the trace
contains no refund event whether the transport call succeeds or
raises. -/
theorem C8_one_permit_no_refund (b : Bool) :
    (send_single_email_trace b).count SendEvent.acquire = 1 ∧
    eventPos SendEvent.acquire < eventPos SendEvent.render ∧
    eventPos SendEvent.acquire < eventPos SendEvent.build ∧
    eventPos SendEvent.acquire < eventPos SendEvent.netcall ∧
    (send_single_email_trace b).count SendEvent.refund = 0 := by
  cases b <;> decide

def c9ctx : Ctx := demoCtx (fun _ => false) []

def c9input : List Row := [demoRow "a@x" 0, demoRow "a@x" 1, demoRow "b@x" 2]

/-- C9 (code bug): the loop reports `idx + 1` where `idx` is the row's
pandas label, not a running counter.  On the de-duplicated table built
from three input rows with a duplicate email (surviving labels 0 and 2),
the two progress events report processed counts 1 and 3 against a total
of 2 — after the second (and last) processed row the code reports 3/2,
where the claim requires k = 2; the reported numbers also drive
`progress_bar.progress((idx+1)/total)` above 1.0. -/
theorem C9_progress_reports_label :
    unique_df c9input = [demoRow "a@x" 0, demoRow "b@x" 2] ∧
    isCompletedRun (run_bulk_with_progress c9ctx (unique_df c9input)) = true ∧
    (resultState (run_bulk_with_progress c9ctx (unique_df c9input))).events.map
      (fun ev => ev.reportedProcessed) = [1, 3] ∧
    (resultState (run_bulk_with_progress c9ctx (unique_df c9input))).events.map
      (fun ev => ev.total) = [2, 2] ∧
    (resultState (run_bulk_with_progress c9ctx (unique_df c9input))).events.length = 2 := by
  decide

def c10ctx : Ctx := { demoCtx (fun _ => false) [] with pdfFolder := some "pdfs" }

def c10missingRow : Row :=
  { email := "b@x", fields := [], pdf := some (CellValue.strVal "doc.pdf"), label := 0 }

def c10nanRow : Row :=
  { email := "a@x", fields := [], pdf := some CellValue.nanVal, label := 0 }

/-- C10 (code bug): when the declared attachment file does not exist the
loop does proceed without the attachment and the recipient is Sent; but
when the row's attachment cell carries no usable value in the way pandas
actually represents it — a missing value read as the float NaN, which is
truthy — `os.path.join(pdf_folder, nan)` raises `TypeError` outside the
loop's try/except, aborting the whole run before any send attempt,
contradicting the claim that attachment resolution never raises and
never aborts the run. -/
theorem C10_nan_attachment_crash :
    resolvePdfPath (some "pdfs") (some (CellValue.strVal "doc.pdf")) (fun _ => false) =
      Except.ok none ∧
    (buildMessage c10ctx "b@x" [] none).attachment = none ∧
    isCompletedRun (run_bulk_with_progress c10ctx [c10missingRow]) = true ∧
    (resultState (run_bulk_with_progress c10ctx [c10missingRow])).sentEmails = ["b@x"] ∧
    isCrashedRun (run_bulk_with_progress c10ctx [c10nanRow]) = true ∧
    (resultState (run_bulk_with_progress c10ctx [c10nanRow])).attemptedRecipients = [] ∧
    (resultState (run_bulk_with_progress c10ctx [c10nanRow])).sentEmails = [] := by
  refine ⟨rfl, ?_⟩
  decide

theorem C8_one_permit_no_refund_witness :
    (send_single_email_trace true).count SendEvent.acquire = 1 ∧
    eventPos SendEvent.acquire < eventPos SendEvent.render ∧
    eventPos SendEvent.acquire < eventPos SendEvent.build ∧
    eventPos SendEvent.acquire < eventPos SendEvent.netcall ∧
    (send_single_email_trace true).count SendEvent.refund = 0 :=
  C8_one_permit_no_refund true
